import Mathlib

/-!
Verification of the `rust_pcap` capture-file parser.

Shallow embedding of `src/lib.rs` (crate `rust_pcap`). The source parses a
classic pcap file: one 24-byte global header, then a sequence of packet
records, each a 16-byte record header followed by `incl_len` payload bytes.

Modelling choices:
* The input stream is a `List Nat` of bytes (each byte value `< 256` in a
  real file; decoding is defined for any `Nat` list, and round-trip facts
  carry the `< 256` side conditions explicitly).
* `std::io::Read::read_exact` over an in-memory stream either fills the
  whole buffer or fails with `ErrorKind::UnexpectedEof` (this is the only
  error kind an exhausted in-memory stream produces; a short read that got
  some but not all requested bytes is still `UnexpectedEof`).  We model it
  as consuming `n` bytes when at least `n` are available and failing
  otherwise.
* Machine integers are `Nat` (unsigned) and `Int` (for the `i32` field
  `thiszone`), with two's-complement decoding written out explicitly.
* `File::open` / `Metadata` are external collaborators excluded from the
  core; the model's entry point takes the byte stream directly, and the
  `metadata` field of `PcapFile` is omitted (the `dbg!` on the header in
  `read_file` is output-only and is the identity on the value).
-/

/-- Mirror of `std::io::ErrorKind` restricted to what the parser inspects:
`read_packets` matches on `ErrorKind::UnexpectedEof` and treats every other
kind through a catch-all arm. -/
inductive ErrorKind where
  | unexpectedEof : ErrorKind
  | other : ErrorKind
deriving DecidableEq, Repr

deriving instance DecidableEq for Except

/-- Model of `Read::read_exact` on an in-memory byte stream: succeed returning the
first `n` bytes and the remainder when `n` bytes are available, otherwise
fail with `UnexpectedEof`. -/
def read_exact (n : Nat) (s : List Nat) : Except ErrorKind (List Nat × List Nat) :=
  if n ≤ s.length then .ok (s.take n, s.drop n) else .error .unexpectedEof

/-- Little-endian `u32::from_le_bytes` on the four bytes of `buf` starting at offset `i`
(missing positions read as 0; never exercised, every caller decodes inside a
buffer long enough). -/
def u32le_at (buf : List Nat) (i : Nat) : Nat :=
  buf.getD i 0 + 256 * buf.getD (i + 1) 0 + 65536 * buf.getD (i + 2) 0
    + 16777216 * buf.getD (i + 3) 0

/-- Little-endian `u16::from_le_bytes` at offset `i`. -/
def u16le_at (buf : List Nat) (i : Nat) : Nat :=
  buf.getD i 0 + 256 * buf.getD (i + 1) 0

/-- Little-endian `i32::from_le_bytes` at offset `i`: two's-complement reading of the
unsigned little-endian value. -/
def i32le_at (buf : List Nat) (i : Nat) : Int :=
  let v := u32le_at buf i
  if v < 2147483648 then (v : Int) else (v : Int) - 4294967296

/-- Mirror of `PcapHeader` from `src/lib.rs`: the 24-byte global header. -/
@[ext]
structure PcapHeader where
  magic_number : Nat
  version_major : Nat
  version_minor : Nat
  thiszone : Int
  sigfigs : Nat
  snaplen : Nat
  network : Nat
deriving DecidableEq, Repr

/-- Mirror of `PacketHeader` from `src/lib.rs`: the 16-byte per-record header. -/
@[ext]
structure PacketHeader where
  ts_sec : Nat
  ts_usec : Nat
  incl_len : Nat
  orig_len : Nat
deriving DecidableEq, Repr

/-- Mirror of `PacketData` from `src/lib.rs`: the captured payload bytes. -/
structure PacketData where
  data : List Nat
deriving DecidableEq, Repr

/-- Mirror of `Packet` from `src/lib.rs`: one record, header plus payload. -/
structure Packet where
  header : PacketHeader
  data : PacketData
deriving DecidableEq, Repr

/-- Mirror of `PcapFile` from `src/lib.rs` minus the filesystem `metadata` field
(an external collaborator, not part of the parsing core). -/
structure PcapFile where
  global_header : PcapHeader
  packets : List Packet
deriving DecidableEq, Repr

/-- Model of `PcapFile::read_file_header`: read exactly 24 bytes
(`size_of::<PcapHeader>()`) and decode each field little-endian at its
fixed offset.  Returns the header and the unconsumed remainder. -/
def read_file_header (s : List Nat) :
    Except ErrorKind (PcapHeader × List Nat) :=
  match read_exact 24 s with
  | .error e => .error e
  | .ok (buffer, rest) =>
      .ok ({ magic_number := u32le_at buffer 0
             version_major := u16le_at buffer 4
             version_minor := u16le_at buffer 6
             thiszone := i32le_at buffer 8
             sigfigs := u32le_at buffer 12
             snaplen := u32le_at buffer 16
             network := u32le_at buffer 20 }, rest)

/-- Model of `PcapFile::read_packet_header`: read exactly 16 bytes
(`size_of::<PacketHeader>()`) and decode the four `u32` fields
little-endian. -/
def read_packet_header (s : List Nat) :
    Except ErrorKind (PacketHeader × List Nat) :=
  match read_exact 16 s with
  | .error e => .error e
  | .ok (buffer, rest) =>
      .ok ({ ts_sec := u32le_at buffer 0
             ts_usec := u32le_at buffer 4
             incl_len := u32le_at buffer 8
             orig_len := u32le_at buffer 12 }, rest)

/-- Model of `PcapFile::read_packet`: read a record header, then `read_exact` a
payload buffer of exactly `incl_len` bytes. -/
def read_packet (s : List Nat) : Except ErrorKind (Packet × List Nat) :=
  match read_packet_header s with
  | .error e => .error e
  | .ok (header, rest) =>
      match read_exact header.incl_len rest with
      | .error e => .error e
      | .ok (data, rest2) => .ok ({ header := header, data := ⟨data⟩ }, rest2)

/-- One step of the `loop` in `PcapFile::read_packets`, structurally
recursive on a fuel bound so that the definition computes by kernel
reduction.  `read_packets` below supplies fuel `s.length + 1`, which is
proven sufficient (`readPacketsGo_congr`): each successful `read_packet`
consumes at least 16 bytes, so the fuel branch `.error .other` is
unreachable.  The error match mirrors the Rust `match error.kind()`:
`UnexpectedEof` breaks the loop returning the packets collected so far,
any other kind aborts with that error. -/
def readPacketsGo : Nat → List Nat → Except ErrorKind (List Packet)
  | 0, _ => .error .other
  | fuel + 1, s =>
      match read_packet s with
      | .ok (packet, rest) =>
          match readPacketsGo fuel rest with
          | .ok packets => .ok (packet :: packets)
          | .error e => .error e
      | .error .unexpectedEof => .ok []
      | .error .other => .error .other

/-- Model of `PcapFile::read_packets`: repeatedly read packets until an
`UnexpectedEof` breaks the loop (returning the collected list) or another
error aborts. -/
def read_packets (s : List Nat) : Except ErrorKind (List Packet) :=
  readPacketsGo (s.length + 1) s

/-- Model of `PcapFile::read_file` with the filesystem collaborators stripped:
decode the global header, then the record stream, and assemble the
`PcapFile` value. -/
def read_file (s : List Nat) : Except ErrorKind PcapFile :=
  match read_file_header s with
  | .error e => .error e
  | .ok (file_header, rest) =>
      match read_packets rest with
      | .error e => .error e
      | .ok packets =>
          .ok { global_header := file_header, packets := packets }

/-! ## Encoders (specification side)

Byte-level encoders inverse to the decoders, used to quantify over
well-formed inputs ("a complete record region", "a valid 24-byte
header"). -/

/-- Little-endian 4-byte encoding of an unsigned 32-bit value. -/
def u32le (n : Nat) : List Nat :=
  [n % 256, n / 256 % 256, n / 65536 % 256, n / 16777216 % 256]

/-- Little-endian 2-byte encoding of an unsigned 16-bit value. -/
def u16le (n : Nat) : List Nat :=
  [n % 256, n / 256 % 256]

/-- Little-endian two's-complement 4-byte encoding of a signed 32-bit
value. -/
def i32le (z : Int) : List Nat :=
  u32le (z % 4294967296).toNat

/-- The 16-byte region encoding a record header. -/
def encodePacketHeader (h : PacketHeader) : List Nat :=
  u32le h.ts_sec ++ u32le h.ts_usec ++ u32le h.incl_len ++ u32le h.orig_len

/-- The record region for one packet: 16-byte header, then the payload. -/
def encodePacket (p : Packet) : List Nat :=
  encodePacketHeader p.header ++ p.data.data

/-- Consecutive record regions in sequence order. -/
def encodePackets (ps : List Packet) : List Nat :=
  (ps.map encodePacket).flatten

/-- The 24-byte region encoding a global header at the §6 offsets. -/
def encodeGlobalHeader (g : PcapHeader) : List Nat :=
  u32le g.magic_number ++ u16le g.version_major ++ u16le g.version_minor
    ++ i32le g.thiszone ++ u32le g.sigfigs ++ u32le g.snaplen ++ u32le g.network

/-- Field bounds making a record header representable in 16 bytes. -/
def PacketHeader.wf (h : PacketHeader) : Prop :=
  h.ts_sec < 4294967296 ∧ h.ts_usec < 4294967296 ∧ h.incl_len < 4294967296
    ∧ h.orig_len < 4294967296

instance (h : PacketHeader) : Decidable h.wf := by
  unfold PacketHeader.wf; infer_instance

/-- A well-formed packet: representable header fields and a payload of
exactly `incl_len` bytes. -/
def Packet.wf (p : Packet) : Prop :=
  p.header.wf ∧ p.data.data.length = p.header.incl_len

instance (p : Packet) : Decidable p.wf := by
  unfold Packet.wf; infer_instance

/-- Field bounds making a global header representable in 24 bytes. -/
def PcapHeader.wf (g : PcapHeader) : Prop :=
  g.magic_number < 4294967296 ∧ g.version_major < 65536 ∧ g.version_minor < 65536
    ∧ -2147483648 ≤ g.thiszone ∧ g.thiszone < 2147483648
    ∧ g.sigfigs < 4294967296 ∧ g.snaplen < 4294967296 ∧ g.network < 4294967296

instance (g : PcapHeader) : Decidable g.wf := by
  unfold PcapHeader.wf; infer_instance

/-! ## Concrete test vectors

The global header of the repository's test fixture (magic `0xA1B2C3D4`,
version 2.4, snaplen 65535, network 1), one complete two-byte-payload
record, a record truncated mid-payload, and a partial record header. -/

def hdrBytes : List Nat :=
  [212, 195, 178, 161, 2, 0, 4, 0, 0, 0, 0, 0, 0, 0, 0, 0, 255, 255, 0, 0, 1, 0, 0, 0]

def hdrVal : PcapHeader :=
  { magic_number := 2712847316, version_major := 2, version_minor := 4,
    thiszone := 0, sigfigs := 0, snaplen := 65535, network := 1 }

def recBytes : List Nat :=
  [1, 0, 0, 0, 2, 0, 0, 0, 2, 0, 0, 0, 2, 0, 0, 0, 9, 9]

def recPkt : Packet :=
  { header := { ts_sec := 1, ts_usec := 2, incl_len := 2, orig_len := 2 },
    data := ⟨[9, 9]⟩ }

def truncBytes : List Nat :=
  [0, 0, 0, 0, 0, 0, 0, 0, 5, 0, 0, 0, 0, 0, 0, 0, 1, 2, 3]

def shortHdrBytes : List Nat := [1, 2, 3, 4, 5, 6, 7, 8]

/-! ## Helper lemmas -/

lemma read_exact_of_le {n : Nat} {s : List Nat} (h : n ≤ s.length) :
    read_exact n s = .ok (s.take n, s.drop n) := by
  simp [read_exact, h]

lemma read_exact_of_gt {n : Nat} {s : List Nat} (h : s.length < n) :
    read_exact n s = .error .unexpectedEof := by
  simp [read_exact]; omega

lemma read_packet_header_of_le {s : List Nat} (h : 16 ≤ s.length) :
    read_packet_header s =
      .ok ({ ts_sec := u32le_at (s.take 16) 0
             ts_usec := u32le_at (s.take 16) 4
             incl_len := u32le_at (s.take 16) 8
             orig_len := u32le_at (s.take 16) 12 }, s.drop 16) := by
  rw [read_packet_header, read_exact_of_le h]

lemma read_packet_header_of_gt {s : List Nat} (h : s.length < 16) :
    read_packet_header s = .error .unexpectedEof := by
  rw [read_packet_header, read_exact_of_gt h]

/-- Closed-form characterization of `read_packet`. -/
lemma read_packet_eq (s : List Nat) :
    read_packet s =
      if 16 ≤ s.length then
        if u32le_at (s.take 16) 8 ≤ s.length - 16 then
          .ok ({ header := { ts_sec := u32le_at (s.take 16) 0
                             ts_usec := u32le_at (s.take 16) 4
                             incl_len := u32le_at (s.take 16) 8
                             orig_len := u32le_at (s.take 16) 12 }
                 data := ⟨(s.drop 16).take (u32le_at (s.take 16) 8)⟩ },
               (s.drop 16).drop (u32le_at (s.take 16) 8))
        else .error .unexpectedEof
      else .error .unexpectedEof := by
  by_cases h16 : 16 ≤ s.length
  · by_cases h2 : u32le_at (s.take 16) 8 ≤ s.length - 16
    · simp only [read_packet, read_packet_header_of_le h16,
        read_exact_of_le (show u32le_at (s.take 16) 8 ≤ (s.drop 16).length by
          simp [List.length_drop]; omega), h16, h2, dif_pos, if_pos]
    · simp only [read_packet, read_packet_header_of_le h16,
        read_exact_of_gt (show (s.drop 16).length < u32le_at (s.take 16) 8 by
          simp [List.length_drop]; omega), h16, h2, dif_pos, if_neg, not_false_iff]
      simp
  · simp only [read_packet, read_packet_header_of_gt (by omega : s.length < 16), h16]
    rfl

/-- Inversion: a successful `read_packet` consumed exactly
`16 + incl_len` bytes, and the payload has exactly `incl_len` bytes. -/
lemma read_packet_ok {s : List Nat} {p : Packet} {r : List Nat}
    (h : read_packet s = .ok (p, r)) :
    s.length = 16 + p.header.incl_len + r.length
      ∧ p.data.data.length = p.header.incl_len
      ∧ r.length < s.length := by
  rw [read_packet_eq] at h
  by_cases h16 : 16 ≤ s.length
  · by_cases h2 : u32le_at (s.take 16) 8 ≤ s.length - 16
    · rw [if_pos h16, if_pos h2] at h
      injection h with h'
      injection h' with hp hr
      subst hp hr
      refine ⟨by simp; omega, by simp; omega, by simp; omega⟩
    · rw [if_pos h16, if_neg h2] at h; exact absurd h (by simp)
  · rw [if_neg h16] at h; exact absurd h (by simp)

/-- `read_packet` only ever fails with `UnexpectedEof`. -/
lemma read_packet_error {s : List Nat} {e : ErrorKind}
    (h : read_packet s = .error e) : e = .unexpectedEof := by
  rw [read_packet_eq] at h
  by_cases h16 : 16 ≤ s.length
  · by_cases h2 : u32le_at (s.take 16) 8 ≤ s.length - 16
    · rw [if_pos h16, if_pos h2] at h; exact absurd h (by simp)
    · rw [if_pos h16, if_neg h2] at h
      injection h with h'; exact h'.symm
  · rw [if_neg h16] at h
    injection h with h'; exact h'.symm

/-- Fuel irrelevance: any fuel exceeding the stream length computes the
same result, so the fuel branch of `readPacketsGo` is unreachable. -/
lemma readPacketsGo_congr (fuel : Nat) :
    ∀ (fuel' : Nat) (s : List Nat), s.length < fuel → s.length < fuel' →
      readPacketsGo fuel s = readPacketsGo fuel' s := by
  induction fuel with
  | zero => intro fuel' s h _; omega
  | succ a ih =>
    intro fuel' s h h'
    cases fuel' with
    | zero => omega
    | succ b =>
      simp only [readPacketsGo]
      cases hp : read_packet s with
      | error e => cases e <;> rfl
      | ok pr =>
        obtain ⟨p, rest⟩ := pr
        have hlen := (read_packet_ok hp).2.2
        dsimp only
        rw [ih b rest (by omega) (by omega)]

/-- The loop equation for `read_packets`, mirroring one iteration of the
Rust `loop`. -/
lemma read_packets_eq (s : List Nat) :
    read_packets s =
      match read_packet s with
      | .ok (packet, rest) =>
          (match read_packets rest with
           | .ok packets => .ok (packet :: packets)
           | .error e => .error e)
      | .error .unexpectedEof => .ok []
      | .error .other => .error .other := by
  unfold read_packets
  conv_lhs => rw [readPacketsGo]
  cases hp : read_packet s with
  | error e => cases e <;> rfl
  | ok pr =>
    obtain ⟨p, rest⟩ := pr
    have hlen := (read_packet_ok hp).2.2
    dsimp only
    rw [readPacketsGo_congr s.length (rest.length + 1) rest (by omega) (by omega)]

/-- `read_packets` never fails: the only error an in-memory stream
produces is `UnexpectedEof`, which the loop converts into success. -/
lemma read_packets_ok : ∀ (n : Nat) (s : List Nat), s.length ≤ n →
    ∃ ps, read_packets s = .ok ps := by
  intro n
  induction n with
  | zero =>
    intro s hs
    rw [read_packets_eq]
    cases hp : read_packet s with
    | error e => rw [read_packet_error hp]; exact ⟨[], rfl⟩
    | ok pr =>
      obtain ⟨p, rest⟩ := pr
      have := (read_packet_ok hp).2.2
      omega
  | succ n ih =>
    intro s hs
    rw [read_packets_eq]
    cases hp : read_packet s with
    | error e => rw [read_packet_error hp]; exact ⟨[], rfl⟩
    | ok pr =>
      obtain ⟨p, rest⟩ := pr
      have hlt := (read_packet_ok hp).2.2
      obtain ⟨ps, hps⟩ := ih rest (by omega)
      dsimp only
      rw [hps]
      exact ⟨p :: ps, rfl⟩

/-! ## Encode/decode round trips -/

lemma getD_lt_of_bytes {l : List Nat} (hb : ∀ b ∈ l, b < 256) (i : Nat) :
    l.getD i 0 < 256 := by
  by_cases h : i < l.length
  · rw [List.getD_eq_getElem?_getD, List.getElem?_eq_getElem h]
    exact hb _ (List.getElem_mem h)
  · rw [List.getD_eq_getElem?_getD, List.getElem?_eq_none (by omega)]
    simp

lemma getD_take_of_lt {s : List Nat} {n i : Nat} (h : i < n) :
    (s.take n).getD i 0 = s.getD i 0 := by
  rw [List.getD_eq_getElem?_getD, List.getD_eq_getElem?_getD, List.getElem?_take]
  simp [h]

lemma u32le_at_take {s : List Nat} {n i : Nat} (h : i + 3 < n) :
    u32le_at (s.take n) i = u32le_at s i := by
  unfold u32le_at
  rw [getD_take_of_lt (by omega), getD_take_of_lt (by omega),
    getD_take_of_lt (by omega), getD_take_of_lt (by omega)]

lemma u16le_at_take {s : List Nat} {n i : Nat} (h : i + 1 < n) :
    u16le_at (s.take n) i = u16le_at s i := by
  unfold u16le_at
  rw [getD_take_of_lt (by omega), getD_take_of_lt (by omega)]

lemma i32le_at_take {s : List Nat} {n i : Nat} (h : i + 3 < n) :
    i32le_at (s.take n) i = i32le_at s i := by
  unfold i32le_at
  rw [u32le_at_take h]

/-- A decoded `u32` is bounded when the buffer holds genuine bytes. -/
lemma u32le_at_lt {l : List Nat} (hb : ∀ b ∈ l, b < 256) (i : Nat) :
    u32le_at l i < 4294967296 := by
  unfold u32le_at
  have h0 := getD_lt_of_bytes hb i
  have h1 := getD_lt_of_bytes hb (i + 1)
  have h2 := getD_lt_of_bytes hb (i + 2)
  have h3 := getD_lt_of_bytes hb (i + 3)
  omega

/-- Decoding the little-endian encoding of a 32-bit value recovers it. -/
lemma u32le_at_encode {n : Nat} (hn : n < 4294967296) (rest : List Nat) :
    u32le_at (u32le n ++ rest) 0 = n := by
  show n % 256 + 256 * (n / 256 % 256) + 65536 * (n / 65536 % 256)
      + 16777216 * (n / 16777216 % 256) = n
  omega

/-- Re-encoding a decoded 32-bit field reproduces the original bytes. -/
lemma u32le_u32le_at {l : List Nat} (hb : ∀ b ∈ l, b < 256) (i : Nat) :
    u32le (u32le_at l i) =
      [l.getD i 0, l.getD (i + 1) 0, l.getD (i + 2) 0, l.getD (i + 3) 0] := by
  have h0 := getD_lt_of_bytes hb i
  have h1 := getD_lt_of_bytes hb (i + 1)
  have h2 := getD_lt_of_bytes hb (i + 2)
  have h3 := getD_lt_of_bytes hb (i + 3)
  unfold u32le u32le_at
  refine List.cons_eq_cons.mpr ⟨by omega, List.cons_eq_cons.mpr ⟨by omega,
    List.cons_eq_cons.mpr ⟨by omega, List.cons_eq_cons.mpr ⟨by omega, rfl⟩⟩⟩⟩

/-- Decoding an encoded record header yields the header back and consumes
exactly its 16 bytes. -/
lemma read_packet_header_encode (hd : PacketHeader) (hwf : hd.wf) (rest : List Nat) :
    read_packet_header (encodePacketHeader hd ++ rest) = .ok (hd, rest) := by
  obtain ⟨a, b, c, d⟩ := hd
  obtain ⟨ha, hb, hc, hd'⟩ := hwf
  dsimp only at ha hb hc hd'
  have h16 : 16 ≤ (encodePacketHeader ⟨a, b, c, d⟩ ++ rest).length := by
    simp [encodePacketHeader, u32le]
  rw [read_packet_header_of_le h16]
  simp only [encodePacketHeader, u32le, List.cons_append, List.nil_append,
    List.take_succ_cons, List.take_zero, List.drop_succ_cons, List.drop_zero,
    u32le_at, List.getD_cons_zero, List.getD_cons_succ,
    Except.ok.injEq, Prod.mk.injEq, PacketHeader.mk.injEq]
  refine ⟨⟨?_, ?_, ?_, ?_⟩, trivial⟩ <;> omega

/-- Decoding an encoded packet yields the packet back and consumes exactly
its region. -/
lemma read_packet_encode (p : Packet) (hwf : p.wf) (rest : List Nat) :
    read_packet (encodePacket p ++ rest) = .ok (p, rest) := by
  obtain ⟨hd, ⟨payload⟩⟩ := p
  obtain ⟨hhd, hlen⟩ := hwf
  dsimp only at hlen
  unfold read_packet
  rw [encodePacket, List.append_assoc, read_packet_header_encode hd hhd]
  dsimp only
  rw [show (hd.incl_len : Nat) = payload.length from hlen.symm,
    read_exact_of_le (by simp), List.take_left, List.drop_left]

lemma read_packets_nil : read_packets [] = .ok [] := rfl

/-- Prepending complete well-formed record regions prepends exactly those
records to whatever the rest of the stream parses to. -/
lemma read_packets_encode_append (ps : List Packet) (hwf : ∀ p ∈ ps, p.wf)
    (s : List Nat) {qs : List Packet} (hs : read_packets s = .ok qs) :
    read_packets (encodePackets ps ++ s) = .ok (ps ++ qs) := by
  induction ps with
  | nil => simpa [encodePackets] using hs
  | cons p ps ih =>
    rw [show encodePackets (p :: ps) ++ s = encodePacket p ++ (encodePackets ps ++ s) by
      simp [encodePackets]]
    rw [read_packets_eq, read_packet_encode p (hwf p (by simp))]
    dsimp only
    rw [ih (fun q hq => hwf q (by simp [hq]))]
    rfl

lemma read_file_header_of_le {s : List Nat} (h : 24 ≤ s.length) :
    read_file_header s =
      .ok ({ magic_number := u32le_at (s.take 24) 0
             version_major := u16le_at (s.take 24) 4
             version_minor := u16le_at (s.take 24) 6
             thiszone := i32le_at (s.take 24) 8
             sigfigs := u32le_at (s.take 24) 12
             snaplen := u32le_at (s.take 24) 16
             network := u32le_at (s.take 24) 20 }, s.drop 24) := by
  rw [read_file_header, read_exact_of_le h]

lemma read_file_header_of_gt {s : List Nat} (h : s.length < 24) :
    read_file_header s = .error .unexpectedEof := by
  rw [read_file_header, read_exact_of_gt h]

/-- Decoding an encoded global header yields it back and consumes exactly
its 24 bytes. -/
lemma read_file_header_encode (g : PcapHeader) (hwf : g.wf) (rest : List Nat) :
    read_file_header (encodeGlobalHeader g ++ rest) = .ok (g, rest) := by
  obtain ⟨m, vj, vn, tz, sf, sl, nw⟩ := g
  obtain ⟨hm, hvj, hvn, htz1, htz2, hsf, hsl, hnw⟩ := hwf
  dsimp only at hm hvj hvn htz1 htz2 hsf hsl hnw
  have h24 : 24 ≤ (encodeGlobalHeader ⟨m, vj, vn, tz, sf, sl, nw⟩ ++ rest).length := by
    simp [encodeGlobalHeader, u32le, u16le, i32le]
  rw [read_file_header_of_le h24]
  simp only [encodeGlobalHeader, u32le, u16le, i32le, List.cons_append, List.nil_append,
    List.take_succ_cons, List.take_zero, List.drop_succ_cons, List.drop_zero,
    u32le_at, u16le_at, i32le_at, List.getD_cons_zero, List.getD_cons_succ,
    Except.ok.injEq, Prod.mk.injEq, PcapHeader.mk.injEq]
  refine ⟨⟨?_, ?_, ?_, ?_, ?_, ?_, ?_⟩, trivial⟩
  · omega
  · omega
  · omega
  · -- thiszone: two's-complement round trip
    split <;> omega
  · omega
  · omega
  · omega

/-- With an intact record header but too few payload bytes, `read_packet`
fails with `UnexpectedEof`. -/
lemma read_packet_payload_short {s : List Nat} {hd : PacketHeader} {r : List Nat}
    (hh : read_packet_header s = .ok (hd, r)) (hshort : r.length < hd.incl_len) :
    read_packet s = .error .unexpectedEof := by
  unfold read_packet
  rw [hh]
  dsimp only
  rw [read_exact_of_gt hshort]

/-- At a stream with fewer than 16 bytes, `read_packet` fails with
`UnexpectedEof` (this covers both the clean boundary and a partial
header). -/
lemma read_packet_short_header {s : List Nat} (h : s.length < 16) :
    read_packet s = .error .unexpectedEof := by
  unfold read_packet
  rw [read_packet_header_of_gt h]

/-- A stream whose next record is truncated (either way) parses as an
empty record list: the loop breaks immediately. -/
lemma read_packets_of_eof {s : List Nat} (h : read_packet s = .error .unexpectedEof) :
    read_packets s = .ok [] := by
  rw [read_packets_eq, h]

/-- Inversion for `read_file`: success means the header succeeded on the
first 24 bytes and the record loop succeeded on the remainder. -/
lemma read_file_ok {s : List Nat} {f : PcapFile} (h : read_file s = .ok f) :
    24 ≤ s.length
      ∧ read_file_header s = .ok (f.global_header, s.drop 24)
      ∧ read_packets (s.drop 24) = .ok f.packets := by
  unfold read_file at h
  by_cases h24 : 24 ≤ s.length
  · rw [read_file_header_of_le h24] at h
    dsimp only at h
    cases hp : read_packets (s.drop 24) with
    | error e => rw [hp] at h; exact absurd h (by simp)
    | ok ps =>
      rw [hp] at h
      dsimp only at h
      injection h with h'
      subst h'
      exact ⟨h24, read_file_header_of_le h24, rfl⟩
  · rw [read_file_header_of_gt (by omega)] at h
    exact absurd h (by simp)

/-- Payload-length invariant, propagated through the whole loop. -/
lemma read_packets_payload_len : ∀ (n : Nat) (s : List Nat) (ps : List Packet),
    s.length ≤ n → read_packets s = .ok ps →
    ∀ p ∈ ps, p.data.data.length = p.header.incl_len := by
  intro n
  induction n with
  | zero =>
    intro s ps hs h
    rw [read_packets_eq] at h
    cases hp : read_packet s with
    | error e =>
      rw [hp, read_packet_error hp] at h
      injection h with h'
      subst h'
      simp
    | ok pr =>
      obtain ⟨p, rest⟩ := pr
      have := (read_packet_ok hp).2.2
      omega
  | succ n ih =>
    intro s ps hs h
    rw [read_packets_eq] at h
    cases hp : read_packet s with
    | error e =>
      rw [hp, read_packet_error hp] at h
      injection h with h'
      subst h'
      simp
    | ok pr =>
      obtain ⟨p, rest⟩ := pr
      rw [hp] at h
      dsimp only at h
      obtain ⟨hcons, hlen, hlt⟩ := read_packet_ok hp
      cases hq : read_packets rest with
      | error e => rw [hq] at h; exact absurd h (by simp)
      | ok qs =>
        rw [hq] at h
        dsimp only at h
        injection h with h'
        subst h'
        intro q hq'
        rcases List.mem_cons.mp hq' with rfl | hmem
        · exact hlen
        · exact ih rest qs (by omega) hq q hmem

/-- A 16-byte buffer of genuine bytes is reproduced by re-encoding the
record header decoded from it. -/
lemma encode_decode_16 {buf : List Nat} (hlen : buf.length = 16) (hb : ∀ b ∈ buf, b < 256) :
    encodePacketHeader
        { ts_sec := u32le_at buf 0, ts_usec := u32le_at buf 4,
          incl_len := u32le_at buf 8, orig_len := u32le_at buf 12 } = buf := by
  rcases buf with _ | ⟨b0, _ | ⟨b1, _ | ⟨b2, _ | ⟨b3, _ | ⟨b4, _ | ⟨b5, _ | ⟨b6, _ | ⟨b7,
    _ | ⟨b8, _ | ⟨b9, _ | ⟨b10, _ | ⟨b11, _ | ⟨b12, _ | ⟨b13, _ | ⟨b14, _ | ⟨b15,
    _ | ⟨b16, tl⟩⟩⟩⟩⟩⟩⟩⟩⟩⟩⟩⟩⟩⟩⟩⟩⟩
  all_goals try (exfalso; simp at hlen <;> omega)
  simp only [List.mem_cons, forall_eq_or_imp, List.not_mem_nil, false_imp_iff,
    implies_true, and_true] at hb
  obtain ⟨h0, h1, h2, h3, h4, h5, h6, h7, h8, h9, h10, h11, h12, h13, h14, h15⟩ := hb
  simp only [encodePacketHeader, u32le, u32le_at, List.getD_cons_zero, List.getD_cons_succ,
    List.cons_append, List.nil_append, List.cons.injEq, and_true]
  repeat' apply And.intro
  all_goals omega

/-- Reverse direction: a successful `read_packet` means the stream starts
with exactly the encoding of the returned (well-formed) packet. -/
lemma read_packet_decomp {s : List Nat} {p : Packet} {r : List Nat}
    (hb : ∀ b ∈ s, b < 256) (h : read_packet s = .ok (p, r)) :
    s = encodePacket p ++ r ∧ p.wf := by
  rw [read_packet_eq] at h
  by_cases h16 : 16 ≤ s.length
  · by_cases h2 : u32le_at (s.take 16) 8 ≤ s.length - 16
    · rw [if_pos h16, if_pos h2] at h
      injection h with h'
      injection h' with hp hr
      subst hp hr
      have hbt : ∀ b ∈ s.take 16, b < 256 := fun b hbm => hb b (List.take_subset _ _ hbm)
      have hlen16 : (s.take 16).length = 16 := by simp [List.length_take]; omega
      constructor
      · rw [encodePacket]
        dsimp only
        rw [encode_decode_16 hlen16 hbt]
        rw [List.append_assoc, List.take_append_drop, List.take_append_drop]
      · refine ⟨⟨?_, ?_, ?_, ?_⟩, ?_⟩
        · exact u32le_at_lt hbt 0
        · exact u32le_at_lt hbt 4
        · exact u32le_at_lt hbt 8
        · exact u32le_at_lt hbt 12
        · simp [List.length_take, List.length_drop]
          omega
    · rw [if_pos h16, if_neg h2] at h; exact absurd h (by simp)
  · rw [if_neg h16] at h; exact absurd h (by simp)

/-- Reverse direction for the loop: a successful parse decomposes the
stream into the consecutive encodings of the returned records, in order,
followed by a tail on which the loop stops immediately. -/
lemma read_packets_decomp : ∀ (n : Nat) (s : List Nat) (ps : List Packet),
    s.length ≤ n → (∀ b ∈ s, b < 256) → read_packets s = .ok ps →
    ∃ t, s = encodePackets ps ++ t ∧ read_packets t = .ok [] ∧ ∀ p ∈ ps, p.wf := by
  intro n
  induction n with
  | zero =>
    intro s ps hs hb h
    rw [read_packets_eq] at h
    cases hp : read_packet s with
    | error e =>
      rw [hp, read_packet_error hp] at h
      injection h with h'
      subst h'
      exact ⟨s, by simp [encodePackets], read_packets_of_eof (read_packet_error hp ▸ hp), by simp⟩
    | ok pr =>
      obtain ⟨p, rest⟩ := pr
      have := (read_packet_ok hp).2.2
      omega
  | succ n ih =>
    intro s ps hs hb h
    rw [read_packets_eq] at h
    cases hp : read_packet s with
    | error e =>
      rw [hp, read_packet_error hp] at h
      injection h with h'
      subst h'
      exact ⟨s, by simp [encodePackets], read_packets_of_eof (read_packet_error hp ▸ hp), by simp⟩
    | ok pr =>
      obtain ⟨p, rest⟩ := pr
      rw [hp] at h
      dsimp only at h
      obtain ⟨hcons, hplen, hlt⟩ := read_packet_ok hp
      obtain ⟨hdec, hpwf⟩ := read_packet_decomp hb hp
      cases hq : read_packets rest with
      | error e => rw [hq] at h; exact absurd h (by simp)
      | ok qs =>
        rw [hq] at h
        dsimp only at h
        injection h with h'
        subst h'
        have hbrest : ∀ b ∈ rest, b < 256 := fun b hbm =>
          hb b (hdec ▸ List.mem_append_right _ hbm)
        obtain ⟨t, ht, hteof, htwf⟩ := ih rest qs (by omega) hbrest hq
        refine ⟨t, ?_, hteof, ?_⟩
        · rw [hdec, ht, show encodePackets (p :: qs) = encodePacket p ++ encodePackets qs by
            simp [encodePackets], List.append_assoc]
        · intro q hq'
          rcases List.mem_cons.mp hq' with rfl | hmem
          · exact hpwf
          · exact htwf q hmem

/-- Evaluation of `read_file_header` on a long-enough stream, with every field expressed
at its fixed byte offset of the stream itself. -/
lemma read_file_header_of_le_raw {s : List Nat} (h : 24 ≤ s.length) :
    read_file_header s =
      .ok ({ magic_number := u32le_at s 0
             version_major := u16le_at s 4
             version_minor := u16le_at s 6
             thiszone := i32le_at s 8
             sigfigs := u32le_at s 12
             snaplen := u32le_at s 16
             network := u32le_at s 20 }, s.drop 24) := by
  rw [read_file_header_of_le h]
  refine congrArg _ (Prod.ext (PcapHeader.ext ?_ ?_ ?_ ?_ ?_ ?_ ?_) rfl)
  · exact u32le_at_take (by omega)
  · exact u16le_at_take (by omega)
  · exact u16le_at_take (by omega)
  · exact i32le_at_take (by omega)
  · exact u32le_at_take (by omega)
  · exact u32le_at_take (by omega)
  · exact u32le_at_take (by omega)


/-- Claim C1 as stated is false on the code: this concrete input has a
last record with an intact 16-byte record header (`incl_len = 5`) but only
3 payload bytes remaining, yet `read_file` returns a successful `Capture`
carrying the record parsed before the truncation point. -/
theorem c1_counterexample :
    read_file (hdrBytes ++ (recBytes ++ truncBytes)) =
      .ok { global_header := hdrVal, packets := [recPkt] } := by
  decide

/-- Claim C1 (amended): for every input consisting of a well-formed global
header, complete records, and a tail whose record header is intact but
whose payload is short (truncated mid-payload), the parse does NOT fail:
the short payload read raises `UnexpectedEof`, which the loop treats as
end-of-capture, so the parse succeeds and returns exactly the records
parsed before the truncation point; the truncated record itself is
dropped, so no returned record has a payload shorter than its
`incl_len`. -/
theorem c1_theorem (g : PcapHeader) (hg : g.wf) (ps : List Packet)
    (hps : ∀ p ∈ ps, p.wf) (t : List Nat) (hd : PacketHeader) (r : List Nat)
    (hh : read_packet_header t = .ok (hd, r)) (hshort : r.length < hd.incl_len) :
    read_file (encodeGlobalHeader g ++ (encodePackets ps ++ t)) =
      .ok { global_header := g, packets := ps } := by
  unfold read_file
  rw [read_file_header_encode g hg]
  dsimp only
  rw [read_packets_encode_append ps hps t
    (read_packets_of_eof (read_packet_payload_short hh hshort))]
  simp

/-- Witness for `c1_theorem` at the concrete truncated input. -/
theorem c1_witness :
    read_file (encodeGlobalHeader hdrVal ++ (encodePackets [recPkt] ++ truncBytes)) =
      .ok { global_header := hdrVal, packets := [recPkt] } :=
  c1_theorem hdrVal (by decide) [recPkt] (by decide) truncBytes
    ⟨0, 0, 5, 0⟩ [1, 2, 3] (by decide) (by decide)

/-- Claim C2 as stated is false on the code: this concrete input ends with
8 of the 16 record-header bytes, yet `read_file` returns success with the
previously parsed record, not a fatal error. -/
theorem c2_counterexample :
    read_file (hdrBytes ++ (recBytes ++ shortHdrBytes)) =
      .ok { global_header := hdrVal, packets := [recPkt] } := by
  decide

/-- Claim C2 (amended): for every input consisting of a well-formed global
header, complete records, and a partial record header (1 to 15 bytes at a
record boundary), the parse does NOT fail: the short header read raises
`UnexpectedEof`, which the loop treats as end-of-capture, so the parse
succeeds and returns the records parsed before the partial header, which
is itself discarded. -/
theorem c2_theorem (g : PcapHeader) (hg : g.wf) (ps : List Packet)
    (hps : ∀ p ∈ ps, p.wf) (t : List Nat) (h1 : 1 ≤ t.length) (h15 : t.length < 16) :
    read_file (encodeGlobalHeader g ++ (encodePackets ps ++ t)) =
      .ok { global_header := g, packets := ps } := by
  unfold read_file
  rw [read_file_header_encode g hg]
  dsimp only
  rw [read_packets_encode_append ps hps t
    (read_packets_of_eof (read_packet_short_header h15))]
  simp

/-- Witness for `c2_theorem` at the concrete partial-header input. -/
theorem c2_witness :
    read_file (encodeGlobalHeader hdrVal ++ (encodePackets [recPkt] ++ shortHdrBytes)) =
      .ok { global_header := hdrVal, packets := [recPkt] } :=
  c2_theorem hdrVal (by decide) [recPkt] (by decide) shortHdrBytes (by decide) (by decide)

/-- Claim C3: in every successfully returned `Capture`, every record's
payload byte length equals that record's `incl_len` header field. -/
theorem c3_theorem (s : List Nat) (f : PcapFile) (h : read_file s = .ok f) :
    ∀ p ∈ f.packets, p.data.data.length = p.header.incl_len := by
  obtain ⟨h24, hfh, hps⟩ := read_file_ok h
  exact read_packets_payload_len (s.drop 24).length (s.drop 24) f.packets le_rfl hps

/-- Witness for `c3_theorem` on a one-record capture, instantiated at its
single record. -/
theorem c3_witness :
    recPkt.data.data.length = recPkt.header.incl_len :=
  c3_theorem (hdrBytes ++ recBytes) ⟨hdrVal, [recPkt]⟩ (by decide) recPkt (by decide)

/-- Claim C4: on any stream with at least 24 bytes the global-header
decoder consumes exactly the first 24 bytes (remainder `s.drop 24`) and
decodes each field little-endian at its fixed offset (`magic_number` at
0..4, `version_major` at 4..6, `version_minor` at 6..8, `thiszone` at
8..12, `sigfigs` at 12..16, `snaplen` at 16..20, `network` at 20..24); on
any stream with fewer than 24 bytes it fails with `UnexpectedEof`, and
`read_file` fails identically, so no records are attempted. -/
theorem c4_theorem (s : List Nat) :
    (24 ≤ s.length →
      read_file_header s =
        .ok ({ magic_number := u32le_at s 0
               version_major := u16le_at s 4
               version_minor := u16le_at s 6
               thiszone := i32le_at s 8
               sigfigs := u32le_at s 12
               snaplen := u32le_at s 16
               network := u32le_at s 20 }, s.drop 24))
      ∧ (s.length < 24 →
        read_file_header s = .error .unexpectedEof
          ∧ read_file s = .error .unexpectedEof) := by
  constructor
  · intro h24
    exact read_file_header_of_le_raw h24
  · intro h24
    have hfh := read_file_header_of_gt h24
    refine ⟨hfh, ?_⟩
    unfold read_file
    rw [hfh]

/-- Witness for `c4_theorem` on a 25-byte and a 3-byte input. -/
theorem c4_witness :
    read_file_header (hdrBytes ++ [7]) = .ok (hdrVal, [7])
      ∧ read_file_header [0, 0, 0] = .error .unexpectedEof
      ∧ read_file [0, 0, 0] = .error .unexpectedEof :=
  ⟨(c4_theorem (hdrBytes ++ [7])).1 (by decide),
    ((c4_theorem [0, 0, 0]).2 (by decide)).1,
    ((c4_theorem [0, 0, 0]).2 (by decide)).2⟩

/-- Claim C5: an input that is a complete 24-byte global header followed by
zero or more complete records and ending exactly at a record boundary
parses successfully, returning exactly those records; with zero records
the result is an empty record sequence. -/
theorem c5_theorem (g : PcapHeader) (hg : g.wf) (ps : List Packet)
    (hps : ∀ p ∈ ps, p.wf) :
    read_file (encodeGlobalHeader g ++ encodePackets ps) =
      .ok { global_header := g, packets := ps } := by
  unfold read_file
  rw [read_file_header_encode g hg]
  dsimp only
  have h := read_packets_encode_append ps hps [] read_packets_nil
  rw [List.append_nil] at h
  rw [h, List.append_nil]

/-- Witness for `c5_theorem`: a header-only capture parses to an empty
record sequence. -/
theorem c5_witness :
    read_file (encodeGlobalHeader hdrVal ++ encodePackets []) =
      .ok { global_header := hdrVal, packets := [] } :=
  c5_theorem hdrVal (by decide) [] (by decide)

/-- Claim C6: the global-header decoder never branches on the magic-number
bytes: for any two 4-byte magic regions over the same remaining 20 bytes,
both decodes succeed, each `magic_number` is the little-endian reading of
its own region, and every other field is identical — all fields are decoded
little-endian regardless of the magic value. -/
theorem c6_theorem (m₁ m₂ rest : List Nat) (h₁ : m₁.length = 4) (h₂ : m₂.length = 4)
    (hr : 20 ≤ rest.length) :
    ∃ hdr₁ hdr₂ : PcapHeader,
      read_file_header (m₁ ++ rest) = .ok (hdr₁, rest.drop 20)
        ∧ read_file_header (m₂ ++ rest) = .ok (hdr₂, rest.drop 20)
        ∧ hdr₁.magic_number = u32le_at m₁ 0
        ∧ hdr₂.magic_number = u32le_at m₂ 0
        ∧ hdr₁.version_major = hdr₂.version_major
        ∧ hdr₁.version_minor = hdr₂.version_minor
        ∧ hdr₁.thiszone = hdr₂.thiszone
        ∧ hdr₁.sigfigs = hdr₂.sigfigs
        ∧ hdr₁.snaplen = hdr₂.snaplen
        ∧ hdr₁.network = hdr₂.network := by
  rcases m₁ with _ | ⟨a, _ | ⟨b, _ | ⟨c, _ | ⟨d, _ | ⟨e, tl⟩⟩⟩⟩⟩
  all_goals try (exfalso; simp at h₁ <;> omega)
  rcases m₂ with _ | ⟨a', _ | ⟨b', _ | ⟨c', _ | ⟨d', _ | ⟨e', tl'⟩⟩⟩⟩⟩
  all_goals try (exfalso; simp at h₂ <;> omega)
  refine ⟨_, _,
    read_file_header_of_le_raw (by simp; omega),
    read_file_header_of_le_raw (by simp; omega),
    rfl, rfl, rfl, rfl, rfl, rfl, rfl, rfl⟩

/-- Witness for `c6_theorem` at the two canonical magic byte orders. -/
theorem c6_witness :
    ∃ hdr₁ hdr₂ : PcapHeader,
      read_file_header ([212, 195, 178, 161] ++
          [0, 0, 0, 0, 0, 0, 0, 0, 0, 0, 0, 0, 0, 0, 0, 0, 0, 0, 0, 0]) =
        .ok (hdr₁, List.drop 20 [0, 0, 0, 0, 0, 0, 0, 0, 0, 0, 0, 0, 0, 0, 0, 0, 0, 0, 0, 0])
        ∧ read_file_header ([161, 178, 195, 212] ++
            [0, 0, 0, 0, 0, 0, 0, 0, 0, 0, 0, 0, 0, 0, 0, 0, 0, 0, 0, 0]) =
          .ok (hdr₂, List.drop 20 [0, 0, 0, 0, 0, 0, 0, 0, 0, 0, 0, 0, 0, 0, 0, 0, 0, 0, 0, 0])
        ∧ hdr₁.magic_number = u32le_at [212, 195, 178, 161] 0
        ∧ hdr₂.magic_number = u32le_at [161, 178, 195, 212] 0
        ∧ hdr₁.version_major = hdr₂.version_major
        ∧ hdr₁.version_minor = hdr₂.version_minor
        ∧ hdr₁.thiszone = hdr₂.thiszone
        ∧ hdr₁.sigfigs = hdr₂.sigfigs
        ∧ hdr₁.snaplen = hdr₂.snaplen
        ∧ hdr₁.network = hdr₂.network :=
  c6_theorem [212, 195, 178, 161] [161, 178, 195, 212]
    [0, 0, 0, 0, 0, 0, 0, 0, 0, 0, 0, 0, 0, 0, 0, 0, 0, 0, 0, 0]
    (by decide) (by decide) (by decide)

/-- Claim C7: every successfully parsed input decomposes, after the 24
header bytes, into the consecutive encodings of the returned records in
sequence order followed by the end-of-capture tail, and each record region
decodes to exactly its record — the returned sequence is in strict file
byte-offset order with no reordering, dropping, or duplication. -/
theorem c7_theorem (s : List Nat) (hb : ∀ b ∈ s, b < 256) (f : PcapFile)
    (hok : read_file s = .ok f) :
    ∃ t : List Nat, s = s.take 24 ++ (encodePackets f.packets ++ t)
      ∧ ∀ p ∈ f.packets, ∀ u : List Nat,
          read_packet (encodePacket p ++ u) = .ok (p, u) := by
  obtain ⟨h24, hfh, hps⟩ := read_file_ok hok
  have hbdrop : ∀ b ∈ s.drop 24, b < 256 := fun b hbm => hb b (List.drop_subset _ _ hbm)
  obtain ⟨t, ht, hteof, htwf⟩ :=
    read_packets_decomp (s.drop 24).length (s.drop 24) f.packets le_rfl hbdrop hps
  refine ⟨t, ?_, fun p hp u => read_packet_encode p (htwf p hp) u⟩
  conv_lhs => rw [← List.take_append_drop 24 s]
  rw [ht]

/-- Witness for `c7_theorem` on a one-record capture. -/
theorem c7_witness :
    ∃ t : List Nat,
      hdrBytes ++ recBytes =
        (hdrBytes ++ recBytes).take 24
          ++ (encodePackets (PcapFile.mk hdrVal [recPkt]).packets ++ t)
        ∧ ∀ p ∈ (PcapFile.mk hdrVal [recPkt]).packets, ∀ u : List Nat,
            read_packet (encodePacket p ++ u) = .ok (p, u) :=
  c7_theorem (hdrBytes ++ recBytes) (by decide) ⟨hdrVal, [recPkt]⟩ (by decide)

/-- Claim C8: parsing is deterministic — two runs of `read_file` over equal
byte sequences produce structurally equal results: equal outcome, equal
global-header fields, and equal record sequences. -/
theorem c8_theorem (s₁ s₂ : List Nat) (h : s₁ = s₂) :
    match read_file s₁, read_file s₂ with
    | .ok f₁, .ok f₂ => f₁.global_header = f₂.global_header ∧ f₁.packets = f₂.packets
    | .error e₁, .error e₂ => e₁ = e₂
    | _, _ => False := by
  subst h
  cases read_file s₁ with
  | ok f => exact ⟨rfl, rfl⟩
  | error e => rfl

/-- Witness for `c8_theorem` at a concrete input. -/
theorem c8_witness :
    match read_file hdrBytes, read_file hdrBytes with
    | .ok f₁, .ok f₂ => f₁.global_header = f₂.global_header ∧ f₁.packets = f₂.packets
    | .error e₁, .error e₂ => e₁ = e₂
    | _, _ => False :=
  c8_theorem hdrBytes hdrBytes rfl

/-- Claim C9: a record whose header decodes with `incl_len = 0` parses
successfully into a record with an empty payload, consuming no payload
bytes — in particular it succeeds when nothing remains after the header. -/
theorem c9_theorem (s : List Nat) (hd : PacketHeader) (r : List Nat)
    (hh : read_packet_header s = .ok (hd, r)) (h0 : hd.incl_len = 0) :
    read_packet s = .ok ({ header := hd, data := ⟨[]⟩ }, r) := by
  unfold read_packet
  rw [hh]
  dsimp only
  rw [h0, read_exact_of_le (Nat.zero_le _), List.take_zero, List.drop_zero]

/-- Witness for `c9_theorem`: a 16-byte all-zero record at the very end of
the input parses to an empty-payload record. -/
theorem c9_witness :
    read_packet [0, 0, 0, 0, 0, 0, 0, 0, 0, 0, 0, 0, 0, 0, 0, 0] =
      .ok ({ header := ⟨0, 0, 0, 0⟩, data := ⟨[]⟩ }, []) :=
  c9_theorem [0, 0, 0, 0, 0, 0, 0, 0, 0, 0, 0, 0, 0, 0, 0, 0]
    ⟨0, 0, 0, 0⟩ [] (by decide) (by decide)

/-- Claim C10: each successful `read_packet` consumes exactly
`16 + incl_len` bytes (so at least 16, and the remaining byte count
strictly decreases), and the record-stream loop always terminates with a
result — the fuel bound `s.length + 1` of the loop model is never
exhausted. -/
theorem c10_theorem (s : List Nat) :
    (∀ (p : Packet) (r : List Nat), read_packet s = .ok (p, r) →
        s.length = 16 + p.header.incl_len + r.length ∧ r.length < s.length)
      ∧ ∃ ps, read_packets s = .ok ps := by
  constructor
  · intro p r h
    obtain ⟨h1, _, h3⟩ := read_packet_ok h
    exact ⟨h1, h3⟩
  · exact read_packets_ok s.length s le_rfl

/-- Witness for `c10_theorem` at a concrete one-record stream. -/
theorem c10_witness :
    (recBytes.length = 16 + recPkt.header.incl_len + ([] : List Nat).length
        ∧ ([] : List Nat).length < recBytes.length)
      ∧ ∃ ps, read_packets recBytes = .ok ps :=
  ⟨(c10_theorem recBytes).1 recPkt [] (by decide), (c10_theorem recBytes).2⟩
